import Mathlib

/-!
Verification development for the gvgai-web LLM relay.

The JavaScript sources are shallowly embedded over `List Char` strings:
- `parseActionL` embeds `parseAction` (lib/response-parser.js, identical copy
  referenced next to lib/prompt-store.js);
- `resolveGo`/`buildPromptL` embed `resolveTemplate`/`buildPrompt`
  (lib/state-converter.js);
- `processMessage`, `tickCheck`, `handleEndS`, `completeCall` embed the
  message-handling and async-LLM-call logic of `LLMClient` (lib/llm-client.js);
  traces of the single-threaded event loop are lists of `SEv` events folded
  through `stepS`.
Strings are `List Char`; JS numbers that the code only ever treats as
integers are `Int`/`Nat`.
-/

/-- `t.startsWith p` on char lists: does `p` occur at the head of `t`? -/
def startsWithL : List Char → List Char → Bool
  | _, [] => true
  | [], _ :: _ => false
  | c :: cs, p :: ps => c == p && startsWithL cs ps

/-- JS `t.includes(pat)`: does `pat` occur contiguously anywhere in `t`? -/
def containsSub (pat : List Char) : List Char → Bool
  | [] => startsWithL [] pat
  | c :: cs => startsWithL (c :: cs) pat || containsSub pat cs

/-- If `p` is a prefix of `t`, return the remainder of `t`. -/
def stripPrefixL : List Char → List Char → Option (List Char)
  | cs, [] => some cs
  | [], _ :: _ => none
  | c :: cs, p :: ps => if c == p then stripPrefixL cs ps else none

/-- JS `s.split(sep)` for a one-char separator; never returns `[]`. -/
def splitOnL (c : Char) : List Char → List (List Char)
  | [] => [[]]
  | d :: ds =>
    match splitOnL c ds with
    | [] => [[d]]
    | r :: rs => if d == c then [] :: r :: rs else (d :: r) :: rs

/-- JS `parts.join(sep)` for a one-char separator. -/
def joinWithL (c : Char) : List (List Char) → List Char
  | [] => []
  | [x] => x
  | x :: y :: rest => x ++ c :: joinWithL c (y :: rest)

/-- JS `parts.join(sep)` for a multi-char separator (e.g. `", "`). -/
def joinSepL (sep : List Char) : List (List Char) → List Char
  | [] => []
  | [x] => x
  | x :: y :: rest => x ++ sep ++ joinSepL sep (y :: rest)

/-! ## Action parser (lib/response-parser.js `parseAction`) -/

/-- The closed action vocabulary `VALID_ACTIONS`. -/
def VALID_ACTIONS : List (List Char) :=
  ["ACTION_NIL".data, "ACTION_UP".data, "ACTION_DOWN".data, "ACTION_LEFT".data,
   "ACTION_RIGHT".data, "ACTION_USE".data, "ACTION_ESCAPE".data]

/-- The neutral fallback action token. -/
def NILc : List Char := "ACTION_NIL".data

/-- JS regex `\w`: ASCII letter, digit or underscore (the texts involved are
ASCII, so the Unicode cases of JS `\w` do not arise). -/
def isWordChar (c : Char) : Bool :=
  (('a' ≤ c && c ≤ 'z') || ('A' ≤ c && c ≤ 'Z') || ('0' ≤ c && c ≤ '9')) || c == '_'

/-- JS regex `\s` (the common whitespace characters). -/
def isSpaceChar (c : Char) : Bool :=
  c == ' ' || c == '\t' || c == '\n' || c == '\r'

/-- Attempt the regex `ACTION:\s*(ACTION_\w+)` at the head of `cs`; on success
return the captured group.  Greedy `\s*` and `\w+` need no backtracking here
because a space can never start `ACTION_` and `\x7d`-style word boundaries are
decided by the first non-word character. -/
def matchStructAt (cs : List Char) : Option (List Char) :=
  match stripPrefixL cs "ACTION:".data with
  | none => none
  | some r1 =>
    let r2 := r1.dropWhile isSpaceChar
    match stripPrefixL r2 "ACTION_".data with
    | none => none
    | some r3 =>
      let run := r3.takeWhile isWordChar
      if run.isEmpty then none else some ("ACTION_".data ++ run)

/-- Leftmost match of `ACTION:\s*(ACTION_\w+)` in `cs` (JS `text.match`),
returning the captured group. -/
def findStructured : List Char → Option (List Char)
  | [] => none
  | c :: cs =>
    match matchStructAt (c :: cs) with
    | some cap => some cap
    | none => findStructured cs

/-- Tier 1 of the parser: the first token of `avail` (caller order) contained
in `text`. -/
def firstIncluded (text : List Char) : List (List Char) → Option (List Char)
  | [] => none
  | a :: rest => if containsSub a text then some a else firstIncluded text rest

/-- `parseAction(llmResponse, availableActions)`: tier 1 is an ordered
substring search over the upper-cased response; tier 2 is the structured
`ACTION:` pattern accepted only when the capture is a legal token; otherwise
the neutral fallback.  An empty response short-circuits to the fallback
(JS `if (!llmResponse)`). -/
def parseActionL (resp : List Char) (avail : List (List Char)) : List Char :=
  if resp.isEmpty then NILc
  else
    let text := resp.map Char.toUpper
    match firstIncluded text avail with
    | some a => a
    | none =>
      match findStructured text with
      | some cap => if avail.contains cap then cap else NILc
      | none => NILc

/-- The simplified parser of claim C10: tier 1 only, otherwise the fallback. -/
def parseSimple (resp : List Char) (avail : List (List Char)) : List Char :=
  if resp.isEmpty then NILc
  else
    match firstIncluded (resp.map Char.toUpper) avail with
    | some a => a
    | none => NILc

/-- Modelled from the spec (§4.6): the first token of `avail` (caller order)
occurring as a case-insensitive substring of `resp`. -/
def specFirstMatch (resp : List Char) : List (List Char) → Option (List Char)
  | [] => none
  | a :: rest =>
    if containsSub (a.map Char.toUpper) (resp.map Char.toUpper) then some a
    else specFirstMatch resp rest

/-- Modelled from the spec (§4.6): tier 1 is a case-insensitive substring
search for each legal token in caller order; tier 2 the structured pattern
accepted only for legal captures; otherwise the neutral fallback. -/
def specParseAction (resp : List Char) (avail : List (List Char)) : List Char :=
  match specFirstMatch resp avail with
  | some a => a
  | none =>
    match findStructured (resp.map Char.toUpper) with
    | some cap => if avail.contains cap then cap else NILc
    | none => NILc

/-! ## Input composer (lib/state-converter.js) -/

/-- The state-snapshot fields the composer reads (JSON fields of the GVGAI
`SerializableStateObservation`); `none` models an absent JSON field. -/
structure SSO where
  gameScore : Option Int
  avatarHealthPoints : Option Int
  gameTick : Option Int
  avatarPosition : Option (Int × Int)
  availableActions : Option (List (List Char))

/-- JS `String(n)` for an integer-valued number. -/
def intToStr (i : Int) : List Char := (toString i).data

/-- The `vars` object literal of `resolveTemplate`: the six recognized
placeholder names and their snapshot values (JS `|| 0` and friends become
`Option.getD`, which agrees with JS truthiness on these integer fields). -/
def lookupVarSrc (sso : SSO) (gn : Option (List Char)) (key : List Char) :
    Option (List Char) :=
  if key == "gameName".data then
    some (match gn with
      | some g => if g.isEmpty then "unknown".data else g
      | none => "unknown".data)
  else if key == "gameScore".data then some (intToStr (sso.gameScore.getD 0))
  else if key == "avatarHealthPoints".data then
    some (intToStr (sso.avatarHealthPoints.getD 0))
  else if key == "gameTick".data then some (intToStr (sso.gameTick.getD 0))
  else if key == "availableActions".data then
    some (joinSepL ", ".data (sso.availableActions.getD [NILc]))
  else if key == "avatarPosition".data then
    some (match sso.avatarPosition with
      | some (x, y) => "(".data ++ intToStr x ++ ", ".data ++ intToStr y ++ ")".data
      | none => "(0, 0)".data)
  else none

/-- Word-named `Object.prototype` members other than `constructor` and
`__proto__` (all functions).  JS property access `vars[key]` on the object
literal reaches these through the prototype chain, so they compare
`!== undefined`. -/
def protoFnNames : List (List Char) :=
  ["hasOwnProperty".data, "isPrototypeOf".data, "propertyIsEnumerable".data,
   "toLocaleString".data, "toString".data, "valueOf".data,
   "__defineGetter__".data, "__defineSetter__".data,
   "__lookupGetter__".data, "__lookupSetter__".data]

/-- `String(vars[key])` for keys found only on `Object.prototype`
(stringifications as produced by Node/V8). -/
def protoLookup (key : List Char) : Option (List Char) :=
  if key == "constructor".data then
    some "function Object() \x7b [native code] \x7d".data
  else if protoFnNames.contains key then
    some ("function ".data ++ key ++ "() \x7b [native code] \x7d".data)
  else if key == "__proto__".data then some "[object Object]".data
  else none

/-- Full JS lookup `vars[key] !== undefined ? String(vars[key]) : undefined`:
own properties first, then the `Object.prototype` chain. -/
def lookupVarJS (sso : SSO) (gn : Option (List Char)) (key : List Char) :
    Option (List Char) :=
  match lookupVarSrc sso gn key with
  | some v => some v
  | none => protoLookup key

/-- Attempt the regex `\x7b\x7b(\w+)\x7d\x7d` at the head of `cs`; on success
return the captured name and the remainder after the match.  Greedy `\w+`
needs no backtracking: a shorter capture would have to be followed by a word
character, which cannot be the closing brace. -/
def matchTemplAt (cs : List Char) : Option (List Char × List Char) :=
  match stripPrefixL cs "\x7b\x7b".data with
  | none => none
  | some r1 =>
    let key := r1.takeWhile isWordChar
    if key.isEmpty then none
    else
      match stripPrefixL (r1.dropWhile isWordChar) "\x7d\x7d".data with
      | none => none
      | some r3 => some (key, r3)

/-- JS `content.replace(re, fn)` with a global regex: scan left to right,
replace each non-overlapping match, resume after it.  A matched placeholder
whose name `lookup` does not know is left verbatim (the JS callback returns
`match` itself).  `fuel` bounds the scan; `content.length` always suffices
because every step consumes at least one character. -/
def resolveGo (lookup : List Char → Option (List Char)) :
    Nat → List Char → List Char
  | _, [] => []
  | 0, cs => cs
  | fuel + 1, c :: cs =>
    match matchTemplAt (c :: cs) with
    | some (key, rest) =>
      (match lookup key with
       | some v => v
       | none => "\x7b\x7b".data ++ key ++ "\x7d\x7d".data) ++
        resolveGo lookup fuel rest
    | none => c :: resolveGo lookup fuel cs

/-- The placeholder names matched during the same scan, in order. -/
def placeholderKeys : Nat → List Char → List (List Char)
  | _, [] => []
  | 0, _ => []
  | fuel + 1, c :: cs =>
    match matchTemplAt (c :: cs) with
    | some (key, rest) => key :: placeholderKeys fuel rest
    | none => placeholderKeys fuel cs

/-- `resolveTemplate(content, sso, extraVars)` for truthy `content`. -/
def resolveTemplateSrc (sso : SSO) (gn : Option (List Char))
    (content : List Char) : List Char :=
  resolveGo (lookupVarJS sso gn) content.length content

/-- Modelled from the spec (§4.5): substitute only the fixed enumerated set of
recognized names, leave every other placeholder verbatim. -/
def specResolve (sso : SSO) (gn : Option (List Char)) (content : List Char) :
    List Char :=
  resolveGo (lookupVarSrc sso gn) content.length content

/-- `resolveTemplate` including the falsy-content guard
(`if (!templateContent) return null`). -/
def resolveOpt (sso : SSO) (gn : Option (List Char)) :
    Option (List Char) → Option (List Char)
  | none => none
  | some c => if c.isEmpty then none else some (resolveTemplateSrc sso gn c)

/-- The always-present per-tick state block (layer 4 of `buildPrompt`). -/
def tickStateL (sso : SSO) : List Char :=
  "Current State — Score: ".data ++ intToStr (sso.gameScore.getD 0) ++
  " | Health: ".data ++ intToStr (sso.avatarHealthPoints.getD 100) ++
  " | Tick: ".data ++ intToStr (sso.gameTick.getD 0) ++
  "\nAvailable actions: ".data ++
  joinSepL ", ".data (sso.availableActions.getD [NILc]) ++
  "\n\nChoose ONE action. Respond with ONLY the action name (e.g., ACTION_UP).".data

/-- The legacy single-message prompt (`buildDescriptivePrompt`), used when no
prompt config is resolved. -/
def buildDescriptiveL (sso : SSO) : List Char :=
  "You are playing a 2D game. Make decisions to survive and win.\nScore: ".data ++
  intToStr (sso.gameScore.getD 0) ++
  " | Health: ".data ++ intToStr (sso.avatarHealthPoints.getD 100) ++
  " | Tick: ".data ++ intToStr (sso.gameTick.getD 0) ++
  "\n\nAvailable actions: ".data ++
  joinSepL ", ".data (sso.availableActions.getD [NILc]) ++
  "\n\nChoose ONE action. Respond with ONLY the action name (e.g., ACTION_UP).".data

/-- The resolved layered configuration consumed by `buildPrompt`
(invocation settings are not needed by any claim and are omitted). -/
structure PromptConfigL where
  systemContent : Option (List Char)
  gameContent : Option (List Char)
  levelContent : Option (List Char)
  gameName : Option (List Char)

/-- JS `[a, b, c].filter(Boolean)` over nullable strings: drop `null` and
empty strings. -/
def filterTruthy : List (Option (List Char)) → List (List Char)
  | [] => []
  | none :: rest => filterTruthy rest
  | some v :: rest => if v.isEmpty then filterTruthy rest else v :: filterTruthy rest

/-- `buildPrompt(sso, promptConfig)`: returns (systemMessage?, userMessage);
the user message joins game context, level context and the per-tick state
block, in that order, with blank lines, omitting absent parts. -/
def buildPromptL (sso : SSO) : Option PromptConfigL → Option (List Char) × List Char
  | none => (none, buildDescriptiveL sso)
  | some cfg =>
    let sys := resolveOpt sso cfg.gameName cfg.systemContent
    let gameC := resolveOpt sso cfg.gameName cfg.gameContent
    let levelC := resolveOpt sso cfg.gameName cfg.levelContent
    (sys, joinSepL "\n\n".data (filterTruthy [gameC, levelC, some (tickStateL sso)]))

/-! ## Relay / message channel (lib/llm-client.js `LLMClient`) -/

/-- The mutable per-session fields of `LLMClient` that the claims concern.
`lastReceivedMessageId` (used only for logging) and the prompt-config fields
(opaque to the claims) are not carried. -/
structure ClientState where
  pendingLLMAction : Option (List Char)
  llmCallInProgress : Bool
  lastLLMCallTime : Nat
  levelCount : Nat
  gameActive : Bool
deriving DecidableEq, Repr

/-- Constructor state, after `connect` has set `gameActive = true`. -/
def initState : ClientState :=
  { pendingLLMAction := none, llmCallInProgress := false, lastLLMCallTime := 0,
    levelCount := 0, gameActive := true }

/-- `this.pendingLLMAction || 'ACTION_NIL'` (JS `||`: an empty string is also
falsy). -/
def cachedOr (s : ClientState) : List Char :=
  match s.pendingLLMAction with
  | some a => if a.isEmpty then NILc else a
  | none => NILc

/-- Observable actions of one synchronous message-processing step:
socket writes, socket.io broadcasts, work deferred via `setImmediate`, and
log-and-drop. -/
inductive Effect where
  | send (id : List Char) (msg : List Char)
  | emitEv (tag : List Char)
  | deferACT (payload : List Char)
  | warnLog
deriving DecidableEq, Repr

/-- The three structured phases. -/
inductive Phase where
  | INIT
  | ACT
  | END
deriving DecidableEq, Repr

def actMarker : List Char := "\"phase\":\"ACT\"".data

def initMarker : List Char := "\"phase\":\"INIT\"".data

def endMarker : List Char := "\"phase\":\"END\"".data

/-- Phase detection of `processMessage`: search a 2000-char head first, fall
back to the full payload only when the head is inconclusive; `ACT` wins over
`INIT` wins over `END` (the branch order of the source). -/
def classifyPhase (payload : List Char) : Option Phase :=
  let hd := payload.take 2000
  let a0 := containsSub actMarker hd
  let i0 := containsSub initMarker hd
  let e0 := containsSub endMarker hd
  let full := !a0 && !i0 && !e0
  let a := if full then containsSub actMarker payload else a0
  let i := if full then containsSub initMarker payload else i0
  let e := if full then containsSub endMarker payload else e0
  if a then some .ACT else if i then some .INIT else if e then some .END else none

/-- `handleEnd`: bump the level counter, reset the cached action, the
in-flight flag and the call timer. -/
def handleEndS (s : ClientState) : ClientState :=
  { s with levelCount := s.levelCount + 1, pendingLLMAction := none,
           llmCallInProgress := false, lastLLMCallTime := 0 }

/-- The frame decoding of `processMessage` (lines 288-290 of the source):
`message.split('#')`, the correlation id is the first part, and the payload
rejoins all remaining parts with `'#'` — only the first separator is
structural. -/
def decodeFrame (message : List Char) : List Char × List Char :=
  let parts := splitOnL '#' message
  (parts.headD [], joinWithL '#' parts.tail)

/-- The synchronous part of `processMessage` on one newline-framed, trimmed
message.  `jsonOk` stands for `JSON.parse` succeeding on a payload (the
parsed object itself is only used off the synchronous path).  Effects are
listed in program order; the `ACT` branch emits its reply first and only
schedules (`Effect.deferACT`) the state broadcast and the throttled LLM call. -/
def processMessage (s : ClientState) (jsonOk : List Char → Bool)
    (message : List Char) : ClientState × List Effect :=
  let msgId := (decodeFrame message).1
  let jsonPayload := (decodeFrame message).2
  if jsonPayload.isEmpty then (s, [.warnLog])
  else if jsonPayload == "START".data then (s, [.send msgId "START_DONE".data])
  else if jsonPayload == "FINISH".data then
    ({ s with gameActive := false }, [.emitEv "session-end".data])
  else
    match classifyPhase jsonPayload with
    | some .ACT =>
      (s, [.send msgId (cachedOr s ++ "#IMAGE".data), .deferACT jsonPayload])
    | some .INIT =>
      if jsonOk jsonPayload then (s, [.send msgId "INIT_DONE#BOTH".data])
      else (s, [.send msgId "INIT_FAILED".data])
    | some .END =>
      if jsonOk jsonPayload then
        (handleEndS s, [.emitEv "level-end".data, .send msgId "END_DONE".data])
      else (s, [.send msgId "END_FAILED".data])
    | none => (s, [.warnLog])

/-- The deferred admission-control check of the `ACT` branch, fused with the
synchronous head of `startAsyncLLMCall`: if no call is in flight and at least
400 ms have passed since the last call started, mark a call started now.
`Nat` subtraction agrees with the JS comparison: a clock reading below
`lastLLMCallTime` fails the guard either way. -/
def tickCheck (s : ClientState) (now : Nat) : ClientState × Bool :=
  if !s.llmCallInProgress && 400 ≤ now - s.lastLLMCallTime then
    ({ s with llmCallInProgress := true, lastLLMCallTime := now }, true)
  else (s, false)

/-- How one `startAsyncLLMCall` invocation can come back: the `fetch` itself
rejects, the HTTP status is non-success (`!response.ok` throws after
broadcasting), the response body fails to decode (`response.json()` or the
`data.choices[0]` access throws), or a content string is obtained. -/
inductive LLMOutcome where
  | fetchFail
  | badStatus (code : Nat) (body : List Char)
  | jsonFail
  | ok (content : List Char)
deriving DecidableEq, Repr

/-- The outcomes the invoker catches as backend errors. -/
def isBackendFailure : LLMOutcome → Bool
  | .ok _ => false
  | _ => true

/-- The tail of `startAsyncLLMCall` from the `fetch` resolution on: on
success the parsed action is committed to the cache unconditionally; every
error is caught; `finally` clears the in-flight flag in all cases. -/
def completeCall (s : ClientState) (o : LLMOutcome) : ClientState :=
  match o with
  | .ok content =>
    { s with pendingLLMAction := some (parseActionL content VALID_ACTIONS),
             llmCallInProgress := false }
  | _ => { s with llmCallInProgress := false }

/-- Events of the single-threaded session timeline: a framed message arrives
(and its deferred `ACT` work, if any, runs at clock `now`), or an in-flight
LLM call resolves. -/
inductive SEv where
  | msg (line : List Char) (now : Nat)
  | llmDone (o : LLMOutcome)
deriving DecidableEq, Repr

/-- The payload scheduled by a `deferACT` effect, if any. -/
def deferredPayload (effs : List Effect) : Option (List Char) :=
  effs.findSome? fun e =>
    match e with
    | .deferACT p => some p
    | _ => none

/-- One step of the session timeline.  Message events carry well-formed JSON
payloads (`jsonOk` is constantly true on this timeline); the deferred `ACT`
work runs immediately after the synchronous part, which is the earliest the
event loop can run it and the only schedule the state outcome depends on. -/
def stepS (s : ClientState) : SEv → ClientState
  | .msg line now =>
    let r := processMessage s (fun _ => true) line
    match deferredPayload r.2 with
    | some _ => (tickCheck r.1 now).1
    | none => r.1
  | .llmDone o => completeCall s o

/-- Run a whole event trace. -/
def runS (s : ClientState) (evs : List SEv) : ClientState := evs.foldl stepS s

/-- The socket writes among a step's effects, in order. -/
def sendsOf (effs : List Effect) : List (List Char × List Char) :=
  effs.filterMap fun e =>
    match e with
    | .send i m => some (i, m)
    | _ => none

/-! Admission-control model for claim C2: traces of `ACT` ticks and call
completions, with a ghost count of calls actually in flight. -/

/-- C2 events: the deferred check of an `ACT` message runs at clock `now`, or
an in-flight call resolves. -/
inductive C2Ev where
  | act (now : Nat)
  | done (o : LLMOutcome)
deriving DecidableEq, Repr

/-- Step of the admission-control model; the second component counts calls
started and not yet resolved. -/
def c2Step : ClientState × Nat → C2Ev → ClientState × Nat
  | (s, n), .act now =>
    let t := tickCheck s now
    (t.1, if t.2 then n + 1 else n)
  | (s, n), .done o => (completeCall s o, n - 1)

/-- The clock values at which invocations start along a trace, in order. -/
def startsOf : ClientState → List C2Ev → List Nat
  | _, [] => []
  | s, .act now :: r =>
    let t := tickCheck s now
    if t.2 then now :: startsOf t.1 r else startsOf t.1 r
  | s, .done o :: r => startsOf (completeCall s o) r

/-- Adjacent elements at least 400 apart. -/
def sep400 : List Nat → Bool
  | [] => true
  | [_] => true
  | t1 :: t2 :: rest => decide (t1 + 400 ≤ t2) && sep400 (t2 :: rest)


/-! ## Concrete fixtures used by counterexamples and witnesses -/

/-- A well-formed `ACT` snapshot payload. -/
def actPayloadC : List Char := "\x7b\"phase\":\"ACT\",\"gameTick\":1\x7d".data

/-- A well-formed `END` snapshot payload. -/
def endPayloadC : List Char := "\x7b\"phase\":\"END\",\"gameWinner\":\"PLAYER_WINS\"\x7d".data

/-- A snapshot with score 42 and every other field absent. -/
def ssoC9 : SSO :=
  { gameScore := some 42, avatarHealthPoints := none, gameTick := none,
    avatarPosition := none, availableActions := none }

/-- Does this timeline event carry a message whose payload classifies as
`END`?  (Such a message is the one whose processing resets the cache.) -/
def isEndMsg : SEv → Bool
  | .msg line _ => classifyPhase (decodeFrame line).2 == some Phase.END
  | .llmDone _ => false

/-! ## Lemmas: split/join round trip -/

lemma splitOnL_ne_nil (c : Char) (l : List Char) : splitOnL c l ≠ [] := by
  cases l with
  | nil => simp [splitOnL]
  | cons d ds =>
    cases h : splitOnL c ds with
    | nil => simp [splitOnL, h]
    | cons r rs => by_cases hd : d == c <;> simp [splitOnL, h, hd]

lemma joinWithL_splitOnL (c : Char) (l : List Char) :
    joinWithL c (splitOnL c l) = l := by
  induction l with
  | nil => rfl
  | cons d ds ih =>
    simp only [splitOnL]
    cases h : splitOnL c ds with
    | nil => exact absurd h (splitOnL_ne_nil c ds)
    | cons r rs =>
      rw [h] at ih
      by_cases hd : d == c
      · have hdc : d = c := by simpa using hd
        simp only [hd, if_pos]
        subst hdc
        simpa [joinWithL] using ih
      · simp only [hd, Bool.false_eq_true, if_neg, not_false_iff]
        cases rs with
        | nil => simpa [joinWithL] using ih
        | cons y ys => simpa [joinWithL] using ih

lemma splitOnL_sep (c : Char) (id rest : List Char) (h : c ∉ id) :
    splitOnL c (id ++ c :: rest) = id :: splitOnL c rest := by
  induction id with
  | nil =>
    simp only [List.nil_append, splitOnL]
    cases hr : splitOnL c rest with
    | nil => exact absurd hr (splitOnL_ne_nil c rest)
    | cons r rs => simp
  | cons a as ih =>
    have ha : (a == c) = false := by
      have hne : a ≠ c := fun e => h (by simp [e])
      simpa using hne
    have h' : c ∉ as := fun m => h (List.mem_cons_of_mem a m)
    show splitOnL c (a :: (as ++ c :: rest)) = (a :: as) :: splitOnL c rest
    simp [splitOnL, ih h', ha]

lemma decodeFrame_encode (id payload : List Char) (h : '#' ∉ id) :
    decodeFrame (id ++ '#' :: payload) = (id, payload) := by
  unfold decodeFrame
  rw [splitOnL_sep _ _ _ h]
  simp [joinWithL_splitOnL]

/-! ## Lemmas: substring search -/

lemma startsWithL_append (p r : List Char) : startsWithL (p ++ r) p = true := by
  induction p with
  | nil => cases r <;> rfl
  | cons c cs ih => simp [startsWithL, ih]

lemma containsSub_of_startsWith {p t : List Char} (h : startsWithL t p = true) :
    containsSub p t = true := by
  cases t with
  | nil => simpa [containsSub] using h
  | cons c cs => simp [containsSub, h]

lemma containsSub_cons {p t : List Char} (c : Char) (h : containsSub p t = true) :
    containsSub p (c :: t) = true := by
  simp [containsSub, h]

lemma containsSub_append_left {p t : List Char} (pre : List Char)
    (h : containsSub p t = true) : containsSub p (pre ++ t) = true := by
  induction pre with
  | nil => simpa
  | cons c cs ih => simpa [containsSub] using Or.inr ih

lemma stripPrefixL_eq : ∀ {p t r : List Char}, stripPrefixL t p = some r → t = p ++ r := by
  intro p
  induction p with
  | nil =>
    intro t r h
    simpa [stripPrefixL] using h
  | cons q ps ih =>
    intro t r h
    cases t with
    | nil => simp [stripPrefixL] at h
    | cons c cs =>
      simp only [stripPrefixL] at h
      by_cases hc : c == q
      · have hcq : c = q := by simpa using hc
        rw [if_pos hc] at h
        subst hcq
        simpa using ih h
      · rw [if_neg hc] at h
        cases h

lemma matchStructAt_contains {cs cap : List Char} (h : matchStructAt cs = some cap) :
    containsSub cap cs = true := by
  unfold matchStructAt at h
  cases h1 : stripPrefixL cs "ACTION:".data with
  | none => rw [h1] at h; cases h
  | some r1 =>
    rw [h1] at h
    cases h2 : stripPrefixL (r1.dropWhile isSpaceChar) "ACTION_".data with
    | none =>
      simp only [h2] at h
      exact Option.noConfusion h
    | some r3 =>
      simp only [h2] at h
      by_cases he : (r3.takeWhile isWordChar).isEmpty
      · simp [he] at h
      · simp only [he, Bool.false_eq_true, if_neg, not_false_iff, Option.some.injEq] at h
        have e1 : cs = "ACTION:".data ++ r1 := stripPrefixL_eq h1
        have e2 : r1.dropWhile isSpaceChar = "ACTION_".data ++ r3 := stripPrefixL_eq h2
        have e3 : r1 = r1.takeWhile isSpaceChar ++ ("ACTION_".data ++ r3) := by
          conv_lhs => rw [← List.takeWhile_append_dropWhile isSpaceChar r1]
          rw [e2]
        have key : containsSub cap ("ACTION_".data ++ r3) = true := by
          have e4 : "ACTION_".data ++ r3 =
              ("ACTION_".data ++ r3.takeWhile isWordChar) ++ r3.dropWhile isWordChar := by
            rw [List.append_assoc, List.takeWhile_append_dropWhile]
          rw [← h, e4]
          exact containsSub_of_startsWith (startsWithL_append _ _)
        rw [e1, e3]
        apply containsSub_append_left
        apply containsSub_append_left
        exact key

lemma findStructured_contains : ∀ {t cap : List Char},
    findStructured t = some cap → containsSub cap t = true := by
  intro t
  induction t with
  | nil => intro cap h; cases h
  | cons c cs ih =>
    intro cap h
    simp only [findStructured] at h
    cases hm : matchStructAt (c :: cs) with
    | some cap2 =>
      rw [hm] at h
      cases h
      exact matchStructAt_contains hm
    | none =>
      rw [hm] at h
      exact containsSub_cons c (ih h)

lemma firstIncluded_none {text : List Char} : ∀ {avail : List (List Char)},
    firstIncluded text avail = none → ∀ a ∈ avail, containsSub a text = false := by
  intro avail
  induction avail with
  | nil => intro _ a ha; cases ha
  | cons b bs ih =>
    intro h a ha
    simp only [firstIncluded] at h
    by_cases hb : containsSub b text
    · rw [if_pos hb] at h; cases h
    · rw [if_neg hb] at h
      rcases List.mem_cons.mp ha with rfl | hmem
      · simpa using hb
      · exact ih h a hmem

lemma containsSub_nil {p : List Char} (h : p ≠ []) : containsSub p [] = false := by
  cases p with
  | nil => exact absurd rfl h
  | cons c cs => rfl

lemma firstIncluded_nil_of_ne : ∀ {avail : List (List Char)},
    (∀ a ∈ avail, a ≠ []) → firstIncluded [] avail = none := by
  intro avail
  induction avail with
  | nil => intro _; rfl
  | cons b bs ih =>
    intro h
    simp only [firstIncluded, containsSub_nil (h b (by simp)), Bool.false_eq_true,
      if_neg, not_false_iff]
    exact ih fun a ha => h a (List.mem_cons_of_mem b ha)

lemma specFirstMatch_eq_firstIncluded {resp : List Char} :
    ∀ {avail : List (List Char)}, (∀ a ∈ avail, a.map Char.toUpper = a) →
    specFirstMatch resp avail = firstIncluded (resp.map Char.toUpper) avail := by
  intro avail
  induction avail with
  | nil => intro _; rfl
  | cons b bs ih =>
    intro h
    have hb := h b (by simp)
    simp only [specFirstMatch, firstIncluded, hb]
    by_cases hc : containsSub b (resp.map Char.toUpper) <;>
      simp [hc, ih fun a ha => h a (List.mem_cons_of_mem b ha)]

/-- C10: the parser's second tier never decides.  Whenever the structured
pattern `ACTION:\s*(ACTION_\w+)` captures a token, that token occurs as a
substring of the (upper-cased) text that the first tier searched, so a legal
capture implies the first tier already returned; `parseAction` is therefore
extensionally equal to the simplified first-tier-only parser. -/
theorem parseAction_second_tier_redundant :
    (∀ text cap, findStructured text = some cap → containsSub cap text = true) ∧
    (∀ resp avail, parseActionL resp avail = parseSimple resp avail) := by
  constructor
  · intro text cap h
    exact findStructured_contains h
  · intro resp avail
    unfold parseActionL parseSimple
    by_cases hr : resp.isEmpty
    · simp [hr]
    · simp only [hr, Bool.false_eq_true, if_neg, not_false_iff]
      cases hf : firstIncluded (resp.map Char.toUpper) avail with
      | some a => rfl
      | none =>
        cases hs : findStructured (resp.map Char.toUpper) with
        | none => rfl
        | some cap =>
          have hc : containsSub cap (resp.map Char.toUpper) = true :=
            findStructured_contains hs
          by_cases hm : avail.contains cap
          · exfalso
            have hmem : cap ∈ avail := by
              simpa [List.contains] using hm
            have hfalse := firstIncluded_none hf cap hmem
            rw [hc] at hfalse
            cases hfalse
          · exact if_neg hm

/-- Witness for C10 at concrete inputs: a deciding structured capture is a
substring, and the two parsers agree. -/
theorem parseAction_second_tier_redundant_witness :
    findStructured "SEE ACTION: ACTION_LEFT".data = some "ACTION_LEFT".data ∧
    containsSub "ACTION_LEFT".data "SEE ACTION: ACTION_LEFT".data = true ∧
    parseActionL "nothing here".data VALID_ACTIONS =
      parseSimple "nothing here".data VALID_ACTIONS :=
  ⟨by decide, parseAction_second_tier_redundant.1 _ _ (by decide),
    parseAction_second_tier_redundant.2 _ _⟩

/-- C7: the parser contract.  For legal-action tokens (nonempty, already
upper-case, as the closed vocabulary is), `parseAction` equals the
spec-worded parser: first legal token occurring case-insensitively, in caller
order; else the structured pattern accepted only for legal captures; else the
neutral fallback.  The three concrete examples of the spec follow. -/
theorem parseAction_contract :
    (∀ resp avail, (∀ a ∈ avail, a ≠ [] ∧ a.map Char.toUpper = a) →
      parseActionL resp avail = specParseAction resp avail) ∧
    parseActionL "I will go ACTION_UP now".data
      ["ACTION_UP".data, "ACTION_DOWN".data] = "ACTION_UP".data ∧
    parseActionL "Action: ACTION_LEFT".data ["ACTION_LEFT".data] =
      "ACTION_LEFT".data ∧
    parseActionL "I don\x27t know".data VALID_ACTIONS = NILc := by
  refine ⟨?_, by decide, by decide, by decide⟩
  intro resp avail h
  have hup : ∀ a ∈ avail, a.map Char.toUpper = a := fun a ha => (h a ha).2
  have hne : ∀ a ∈ avail, a ≠ [] := fun a ha => (h a ha).1
  unfold parseActionL specParseAction
  rw [specFirstMatch_eq_firstIncluded hup]
  by_cases hr : resp.isEmpty
  · have hnil : resp = [] := by
      cases resp with
      | nil => rfl
      | cons c cs => simp [List.isEmpty] at hr
    subst hnil
    simp only [List.map_nil, firstIncluded_nil_of_ne hne]
    rfl
  · simp [hr]

/-- Witness for C7: the general equality applied to a concrete response and
the full vocabulary. -/
theorem parseAction_contract_witness :
    parseActionL "please go action_down".data VALID_ACTIONS =
      specParseAction "please go action_down".data VALID_ACTIONS :=
  parseAction_contract.1 _ VALID_ACTIONS (by decide)

/-! ## Lemmas: message processing -/

lemma processMessage_act_eq (s : ClientState) (jsonOk : List Char → Bool)
    (id payload : List Char) (hid : '#' ∉ id)
    (hA : classifyPhase payload = some .ACT) :
    processMessage s jsonOk (id ++ '#' :: payload) =
      (s, [.send id (cachedOr s ++ "#IMAGE".data), .deferACT payload]) := by
  have hne : payload ≠ [] := by
    intro e
    rw [e, show classifyPhase ([] : List Char) = none from by decide] at hA
    exact Option.noConfusion hA
  have hS : payload ≠ "START".data := by
    intro e
    rw [e, show classifyPhase "START".data = none from by decide] at hA
    exact Option.noConfusion hA
  have hF : payload ≠ "FINISH".data := by
    intro e
    rw [e, show classifyPhase "FINISH".data = none from by decide] at hA
    exact Option.noConfusion hA
  have hpe : payload.isEmpty = false := by
    cases payload with
    | nil => exact absurd rfl hne
    | cons c cs => rfl
  have h1 : (payload == "START".data) = false := by simpa using hS
  have h2 : (payload == "FINISH".data) = false := by simpa using hF
  simp only [processMessage, decodeFrame_encode id payload hid, hpe, h1, h2, hA,
    Bool.false_eq_true, if_neg, not_false_iff, if_false]

lemma processMessage_nophase_eq (s : ClientState) (jsonOk : List Char → Bool)
    (id payload : List Char) (hid : '#' ∉ id)
    (hN : classifyPhase payload = none) (hne : payload ≠ [])
    (hS : payload ≠ "START".data) (hF : payload ≠ "FINISH".data) :
    processMessage s jsonOk (id ++ '#' :: payload) = (s, [.warnLog]) := by
  have hpe : payload.isEmpty = false := by
    cases payload with
    | nil => exact absurd rfl hne
    | cons c cs => rfl
  have h1 : (payload == "START".data) = false := by simpa using hS
  have h2 : (payload == "FINISH".data) = false := by simpa using hF
  simp only [processMessage, decodeFrame_encode id payload hid, hpe, h1, h2, hN,
    Bool.false_eq_true, if_neg, not_false_iff, if_false]

/-- C6: wire-framing round trip.  For every valid frame `id # payload` the
split-and-rejoin decoding of `processMessage` reconstructs the payload
exactly, even when the payload contains embedded `#` characters — only the
first separator is structural. -/
theorem frame_roundtrip :
    ∀ id payload : List Char, '#' ∉ id →
      decodeFrame (id ++ '#' :: payload) = (id, payload) :=
  fun id payload h => decodeFrame_encode id payload h

/-- Witness for C6 with a payload containing embedded `#` characters. -/
theorem frame_roundtrip_witness :
    '#' ∉ "42".data ∧
    decodeFrame ("42".data ++ '#' :: "\x7b\"a\":\"x#y#z\"\x7d".data) =
      ("42".data, "\x7b\"a\":\"x#y#z\"\x7d".data) :=
  ⟨by decide, frame_roundtrip _ _ (by decide)⟩

/-- C1: for every message classified `ACT`, the synchronous effects are
exactly one write — same correlation id, the cached action (or `ACTION_NIL`)
with the `#IMAGE` suffix — followed by the deferred decision work; the write
therefore precedes any asynchronous work on the message, whose state it
leaves untouched. -/
theorem act_reply_before_async :
    ∀ (s : ClientState) (jsonOk : List Char → Bool) (id payload : List Char),
      '#' ∉ id → classifyPhase payload = some .ACT →
      processMessage s jsonOk (id ++ '#' :: payload) =
        (s, [Effect.send id (cachedOr s ++ "#IMAGE".data),
          Effect.deferACT payload]) :=
  fun s jsonOk id payload hid hA => processMessage_act_eq s jsonOk id payload hid hA

/-- Witness for C1 at a concrete `ACT` frame in the initial state. -/
theorem act_reply_before_async_witness :
    ('#' ∉ "5".data ∧ classifyPhase actPayloadC = some .ACT) ∧
    processMessage initState (fun _ => true) ("5".data ++ '#' :: actPayloadC) =
      (initState, [Effect.send "5".data "ACTION_NIL#IMAGE".data,
        Effect.deferACT actPayloadC]) := by
  refine ⟨⟨by decide, by decide⟩, ?_⟩
  rw [act_reply_before_async initState (fun _ => true) "5".data actPayloadC
    (by decide) (by decide)]
  rfl

/-- C5 counterexample: the frame `7#\x7b\x7d` (well-formed wire frame, payload a
JSON object with no detectable phase) produces no reply at all — the claim
that a reply is never skipped on malformed/unclassifiable payloads is false. -/
theorem act_reply_never_skipped_counterexample :
    decodeFrame "7#\x7b\x7d".data = ("7".data, "\x7b\x7d".data) ∧
    (processMessage initState (fun _ => true) "7#\x7b\x7d".data).2 = [Effect.warnLog] ∧
    sendsOf (processMessage initState (fun _ => true) "7#\x7b\x7d".data).2 = [] := by
  decide

/-- C5 amended: a message whose payload classifies as `ACT` always gets the
immediate fallback-or-cached reply, regardless of whether the payload is
parseable JSON; but a well-formed frame whose payload has no detectable phase
(and is not a control token) is logged and dropped with no reply. -/
theorem act_reply_never_skipped_amended :
    (∀ (s : ClientState) (jsonOk : List Char → Bool) (id payload : List Char),
        '#' ∉ id → classifyPhase payload = some .ACT →
        sendsOf (processMessage s jsonOk (id ++ '#' :: payload)).2 =
          [(id, cachedOr s ++ "#IMAGE".data)]) ∧
    (∀ (s : ClientState) (jsonOk : List Char → Bool) (id payload : List Char),
        '#' ∉ id → classifyPhase payload = none → payload ≠ [] →
        payload ≠ "START".data → payload ≠ "FINISH".data →
        (processMessage s jsonOk (id ++ '#' :: payload)).2 = [Effect.warnLog]) := by
  constructor
  · intro s jsonOk id payload hid hA
    rw [processMessage_act_eq s jsonOk id payload hid hA]
    rfl
  · intro s jsonOk id payload hid hN hne hS hF
    rw [processMessage_nophase_eq s jsonOk id payload hid hN hne hS hF]

/-- Witness for the amended C5: an unparseable `ACT` payload still replied to,
and a phase-less payload dropped. -/
theorem act_reply_never_skipped_amended_witness :
    sendsOf (processMessage initState (fun _ => false)
        ("9".data ++ '#' :: "broken \"phase\":\"ACT\" json".data)).2 =
      [("9".data, "ACTION_NIL#IMAGE".data)] ∧
    (processMessage initState (fun _ => false)
        ("9".data ++ '#' :: "no phase at all".data)).2 = [Effect.warnLog] := by
  constructor
  · rw [act_reply_never_skipped_amended.1 initState (fun _ => false) "9".data
      "broken \"phase\":\"ACT\" json".data (by decide) (by decide)]
    rfl
  · exact act_reply_never_skipped_amended.2 initState (fun _ => false) "9".data
      "no phase at all".data (by decide) (by decide) (by decide) (by decide)
      (by decide)

/-- C8: a failed decision invocation — the fetch rejects, the HTTP status is
non-success, or the response body fails to decode — is caught at the invoker
boundary: the cached action, and hence the action the next `ACT` reply would
carry, are exactly as if the invocation had never run; only the in-flight
flag is cleared. -/
theorem backend_failure_leaves_cache :
    ∀ (s : ClientState) (o : LLMOutcome), isBackendFailure o = true →
      (completeCall s o).pendingLLMAction = s.pendingLLMAction ∧
      cachedOr (completeCall s o) = cachedOr s ∧
      (completeCall s o).llmCallInProgress = false := by
  intro s o h
  cases o with
  | ok content => simp [isBackendFailure] at h
  | fetchFail => exact ⟨rfl, rfl, rfl⟩
  | badStatus code body => exact ⟨rfl, rfl, rfl⟩
  | jsonFail => exact ⟨rfl, rfl, rfl⟩

/-- Witness for C8: a 500 response leaves a concrete cached action in place. -/
theorem backend_failure_leaves_cache_witness :
    isBackendFailure (.badStatus 500 "upstream error".data) = true ∧
    (completeCall (ClientState.mk (some "ACTION_UP".data) true 777 2 true)
        (.badStatus 500 "upstream error".data)).pendingLLMAction =
      some "ACTION_UP".data := by
  refine ⟨by decide, ?_⟩
  rw [(backend_failure_leaves_cache
    (ClientState.mk (some "ACTION_UP".data) true 777 2 true)
    (.badStatus 500 "upstream error".data) (by decide)).1]

/-- C3 counterexample: an invocation started at level 0; `END` then resets
the session to level 1 with an empty cache; the stale invocation completes —
and its result is committed into the new level's cache, not discarded (there
is no generation guard in the code). -/
theorem stale_result_discarded_counterexample :
    (runS initState
        [SEv.msg ("1".data ++ '#' :: actPayloadC) 1000]).llmCallInProgress = true ∧
    (runS initState [SEv.msg ("1".data ++ '#' :: actPayloadC) 1000,
        SEv.msg ("2".data ++ '#' :: endPayloadC) 1001]).pendingLLMAction = none ∧
    (runS initState [SEv.msg ("1".data ++ '#' :: actPayloadC) 1000,
        SEv.msg ("2".data ++ '#' :: endPayloadC) 1001,
        SEv.llmDone (.ok "ACTION_UP".data)]).pendingLLMAction =
      some "ACTION_UP".data ∧
    (runS initState [SEv.msg ("1".data ++ '#' :: actPayloadC) 1000,
        SEv.msg ("2".data ++ '#' :: endPayloadC) 1001,
        SEv.llmDone (.ok "ACTION_UP".data)]).levelCount = 1 := by
  decide

/-- C3 amended: no completion is ever discarded.  A successful completion
commits its parsed action into the cache unconditionally — whatever the
level counter or open/closed state at that moment — and clears the
in-flight flag; the session fields themselves are untouched. -/
theorem stale_result_committed :
    ∀ (s : ClientState) (content : List Char),
      (completeCall s (.ok content)).pendingLLMAction =
        some (parseActionL content VALID_ACTIONS) ∧
      (completeCall s (.ok content)).levelCount = s.levelCount ∧
      (completeCall s (.ok content)).gameActive = s.gameActive ∧
      (completeCall s (.ok content)).llmCallInProgress = false :=
  fun _ _ => ⟨rfl, rfl, rfl, rfl⟩

/-- C4 counterexample: the cache is non-null after the first completed
invocation, yet the next `END` sets it back to null — the claimed
never-null-after-first-completion invariant fails across `END`. -/
theorem cache_never_null_counterexample :
    (runS initState [SEv.msg ("1".data ++ '#' :: actPayloadC) 1000,
        SEv.llmDone (.ok "ACTION_UP".data)]).pendingLLMAction =
      some "ACTION_UP".data ∧
    (runS initState [SEv.msg ("1".data ++ '#' :: actPayloadC) 1000,
        SEv.llmDone (.ok "ACTION_UP".data),
        SEv.msg ("2".data ++ '#' :: endPayloadC) 1001]).pendingLLMAction = none := by
  decide

lemma tickCheck_pending (s : ClientState) (now : Nat) :
    ((tickCheck s now).1).pendingLLMAction = s.pendingLLMAction := by
  unfold tickCheck
  split <;> rfl

lemma processMessage_pending_of_not_end (s : ClientState)
    (jsonOk : List Char → Bool) (line : List Char)
    (h : (classifyPhase (decodeFrame line).2 == some Phase.END) = false) :
    ((processMessage s jsonOk line).1).pendingLLMAction = s.pendingLLMAction := by
  by_cases h0 : ((decodeFrame line).2).isEmpty
  · simp [processMessage, h0]
  · by_cases h1 : (decodeFrame line).2 == "START".data
    · simp [processMessage, h0, h1]
    · by_cases h2 : (decodeFrame line).2 == "FINISH".data
      · simp [processMessage, h0, h1, h2]
      · cases hc : classifyPhase (decodeFrame line).2 with
        | none => simp [processMessage, h0, h1, h2, hc]
        | some ph =>
          cases ph with
          | ACT => simp [processMessage, h0, h1, h2, hc]
          | INIT =>
            by_cases hj : jsonOk (decodeFrame line).2 <;>
              simp [processMessage, h0, h1, h2, hc, hj]
          | END =>
            rw [hc] at h
            simp at h

lemma processMessage_end_eq (s : ClientState) (id payload : List Char)
    (hid : '#' ∉ id) (hE : classifyPhase payload = some .END) :
    processMessage s (fun _ => true) (id ++ '#' :: payload) =
      (handleEndS s, [.emitEv "level-end".data, .send id "END_DONE".data]) := by
  have hne : payload ≠ [] := by
    intro e
    rw [e, show classifyPhase ([] : List Char) = none from by decide] at hE
    exact Option.noConfusion hE
  have hS : payload ≠ "START".data := by
    intro e
    rw [e, show classifyPhase "START".data = none from by decide] at hE
    exact Option.noConfusion hE
  have hF : payload ≠ "FINISH".data := by
    intro e
    rw [e, show classifyPhase "FINISH".data = none from by decide] at hE
    exact Option.noConfusion hE
  have hpe : payload.isEmpty = false := by
    cases payload with
    | nil => exact absurd rfl hne
    | cons c cs => rfl
  have h1 : (payload == "START".data) = false := by simpa using hS
  have h2 : (payload == "FINISH".data) = false := by simpa using hF
  simp only [processMessage, decodeFrame_encode id payload hid, hpe, h1, h2, hE,
    Bool.false_eq_true, if_neg, not_false_iff, if_false, if_true]

/-- C4 amended: the cached action is non-null from the first successful
completion until the next `END`-classified message, which is the one
operation that resets it to null / absent; `END` also increments the level
counter by exactly one, and an absent cache is substituted by `ACTION_NIL`
at reply time. -/
theorem cache_nonnull_until_end :
    (∀ (s : ClientState) (ev : SEv), isEndMsg ev = false →
      s.pendingLLMAction ≠ none → (stepS s ev).pendingLLMAction ≠ none) ∧
    (∀ (s : ClientState) (content : List Char),
      (stepS s (.llmDone (.ok content))).pendingLLMAction ≠ none) ∧
    (∀ (s : ClientState) (id payload : List Char) (now : Nat),
      '#' ∉ id → classifyPhase payload = some .END →
      (stepS s (.msg (id ++ '#' :: payload) now)).pendingLLMAction = none ∧
      (stepS s (.msg (id ++ '#' :: payload) now)).levelCount = s.levelCount + 1 ∧
      cachedOr (stepS s (.msg (id ++ '#' :: payload) now)) = NILc) := by
  refine ⟨?_, ?_, ?_⟩
  · intro s ev hend hpend
    cases ev with
    | llmDone o =>
      cases o with
      | ok content => simp [stepS, completeCall]
      | fetchFail => simpa [stepS, completeCall] using hpend
      | badStatus code body => simpa [stepS, completeCall] using hpend
      | jsonFail => simpa [stepS, completeCall] using hpend
    | msg line now =>
      have hnotend : (classifyPhase (decodeFrame line).2 == some Phase.END) = false := by
        simpa [isEndMsg] using hend
      have hpm := processMessage_pending_of_not_end s (fun _ => true) line hnotend
      simp only [stepS]
      cases hd : deferredPayload (processMessage s (fun _ => true) line).2 with
      | some p =>
        show ((tickCheck (processMessage s (fun _ => true) line).1 now).1).pendingLLMAction ≠ none
        rw [tickCheck_pending, hpm]
        exact hpend
      | none =>
        show ((processMessage s (fun _ => true) line).1).pendingLLMAction ≠ none
        rw [hpm]
        exact hpend
  · intro s content
    simp [stepS, completeCall]
  · intro s id payload now hid hE
    have hstep : stepS s (.msg (id ++ '#' :: payload) now) = handleEndS s := by
      simp only [stepS, processMessage_end_eq s id payload hid hE]
      rfl
    rw [hstep]
    exact ⟨rfl, rfl, rfl⟩

/-- Witness for the amended C4 at concrete states and messages. -/
theorem cache_nonnull_until_end_witness :
    (stepS (ClientState.mk (some "ACTION_UP".data) false 500 0 true)
        (.msg ("3".data ++ '#' :: actPayloadC) 950)).pendingLLMAction ≠ none ∧
    (stepS initState (.llmDone (.ok "go ACTION_LEFT".data))).pendingLLMAction ≠ none ∧
    (stepS (ClientState.mk (some "ACTION_UP".data) false 500 0 true)
        (.msg ("4".data ++ '#' :: endPayloadC) 990)).pendingLLMAction = none := by
  refine ⟨?_, ?_, ?_⟩
  · exact cache_nonnull_until_end.1 _ _ (by decide) (by decide)
  · exact cache_nonnull_until_end.2.1 initState "go ACTION_LEFT".data
  · exact (cache_nonnull_until_end.2.2 _ "4".data endPayloadC 990 (by decide)
      (by decide)).1

/-! ## Lemmas: admission control -/

lemma c2Step_inv (p : ClientState × Nat) (e : C2Ev)
    (h : p.2 = if p.1.llmCallInProgress then 1 else 0) :
    (c2Step p e).2 = if (c2Step p e).1.llmCallInProgress then 1 else 0 := by
  obtain ⟨s, n⟩ := p
  cases e with
  | act now =>
    by_cases hf : s.llmCallInProgress
    · simp only [c2Step, tickCheck, hf, Bool.not_true, Bool.false_and,
        Bool.false_eq_true, if_neg, not_false_iff]
      simpa [hf] using h
    · by_cases ht : 400 ≤ now - s.lastLLMCallTime
      · simp only [hf] at h
        simp [c2Step, tickCheck, hf, ht, h]
      · simp only [hf] at h
        simp [c2Step, tickCheck, hf, ht, h]
  | done o =>
    have h2 : n = if s.llmCallInProgress then 1 else 0 := h
    have hn : n ≤ 1 := by
      rw [h2]
      split <;> omega
    have hflag : (completeCall s o).llmCallInProgress = false := by
      cases o <;> rfl
    simp only [c2Step, hflag, Bool.false_eq_true, if_neg, not_false_iff]
    omega

lemma c2_foldl_inv : ∀ (evs : List C2Ev) (p : ClientState × Nat),
    p.2 = (if p.1.llmCallInProgress then 1 else 0) →
    (List.foldl c2Step p evs).2 =
      if (List.foldl c2Step p evs).1.llmCallInProgress then 1 else 0 := by
  intro evs
  induction evs with
  | nil => intro p h; exact h
  | cons e r ih =>
    intro p h
    exact ih _ (c2Step_inv p e h)

lemma startsOf_lb : ∀ (evs : List C2Ev) (s : ClientState) (t : Nat),
    t ∈ startsOf s evs → s.lastLLMCallTime + 400 ≤ t := by
  intro evs
  induction evs with
  | nil =>
    intro s t ht
    cases ht
  | cons e r ih =>
    intro s t ht
    cases e with
    | act now =>
      by_cases hf : s.llmCallInProgress
      · have hskip : startsOf s (C2Ev.act now :: r) = startsOf s r := by
          simp [startsOf, tickCheck, hf]
        rw [hskip] at ht
        exact ih s t ht
      · by_cases htime : 400 ≤ now - s.lastLLMCallTime
        · have hse : startsOf s (C2Ev.act now :: r) = now :: startsOf { s with llmCallInProgress := true, lastLLMCallTime := now } r := by
            simp [startsOf, tickCheck, hf, htime]
          rw [hse] at ht
          have hlast : s.lastLLMCallTime + 400 ≤ now := by omega
          rcases List.mem_cons.mp ht with rfl | hmem
          · exact hlast
          · have hrec := ih _ t hmem
            have hupd : ({ s with llmCallInProgress := true, lastLLMCallTime := now } : ClientState).lastLLMCallTime = now := rfl
            rw [hupd] at hrec
            omega
        · have hskip : startsOf s (C2Ev.act now :: r) = startsOf s r := by
            simp [startsOf, tickCheck, hf, htime]
          rw [hskip] at ht
          exact ih s t ht
    | done o =>
      have hskip : startsOf s (C2Ev.done o :: r) = startsOf (completeCall s o) r := by
        simp [startsOf]
      rw [hskip] at ht
      have hrec := ih _ t ht
      have hsame : (completeCall s o).lastLLMCallTime = s.lastLLMCallTime := by
        cases o <;> rfl
      rw [hsame] at hrec
      exact hrec

lemma startsOf_sep : ∀ (evs : List C2Ev) (s : ClientState),
    sep400 (startsOf s evs) = true := by
  intro evs
  induction evs with
  | nil => intro s; rfl
  | cons e r ih =>
    intro s
    cases e with
    | act now =>
      by_cases hf : s.llmCallInProgress
      · have hskip : startsOf s (C2Ev.act now :: r) = startsOf s r := by
          simp [startsOf, tickCheck, hf]
        rw [hskip]
        exact ih s
      · by_cases htime : 400 ≤ now - s.lastLLMCallTime
        · have hse : startsOf s (C2Ev.act now :: r) = now :: startsOf { s with llmCallInProgress := true, lastLLMCallTime := now } r := by
            simp [startsOf, tickCheck, hf, htime]
          rw [hse]
          cases hr : startsOf { s with llmCallInProgress := true, lastLLMCallTime := now } r with
          | nil => rfl
          | cons t2 ts =>
            have hm : t2 ∈ startsOf { s with llmCallInProgress := true, lastLLMCallTime := now } r := by
              rw [hr]
              exact List.mem_cons_self _ _
            have ht2 := startsOf_lb r _ t2 hm
            have hupd : ({ s with llmCallInProgress := true, lastLLMCallTime := now } : ClientState).lastLLMCallTime = now := rfl
            rw [hupd] at ht2
            have hrest : sep400 (t2 :: ts) = true := by
              rw [← hr]
              exact ih _
            simp [sep400, ht2, hrest]
        · have hskip : startsOf s (C2Ev.act now :: r) = startsOf s r := by
            simp [startsOf, tickCheck, hf, htime]
          rw [hskip]
          exact ih s
    | done o =>
      have hskip : startsOf s (C2Ev.done o :: r) = startsOf (completeCall s o) r := by
        simp [startsOf]
      rw [hskip]
      exact ih _

/-- C2: admission control.  Along any trace of `ACT` ticks and call
completions from the initial session state, the number of decision calls in
flight never exceeds one at any instant (any prefix of the trace), and
consecutive invocation starts are at least the fixed 400 ms minimum interval
apart, however fast the ticks arrive. -/
theorem admission_control :
    ∀ evs : List C2Ev,
      (∀ pre suf : List C2Ev, evs = pre ++ suf →
        (List.foldl c2Step (initState, 0) pre).2 ≤ 1) ∧
      sep400 (startsOf initState evs) = true := by
  intro evs
  constructor
  · intro pre _ _
    have h := c2_foldl_inv pre (initState, 0) rfl
    rw [h]
    split <;> omega
  · exact startsOf_sep evs initState

/-- Witness for C2 on a concrete fast-arrival trace. -/
theorem admission_control_witness :
    (List.foldl c2Step (initState, 0)
      [C2Ev.act 500, C2Ev.act 600]).2 ≤ 1 ∧
    sep400 (startsOf initState [C2Ev.act 500, C2Ev.act 600,
      C2Ev.done .fetchFail, C2Ev.act 800, C2Ev.act 950]) = true :=
  ⟨(admission_control [C2Ev.act 500, C2Ev.act 600]).1
      [C2Ev.act 500, C2Ev.act 600] [] (by decide),
    (admission_control [C2Ev.act 500, C2Ev.act 600, C2Ev.done .fetchFail,
      C2Ev.act 800, C2Ev.act 950]).2⟩

/-! ## Lemmas: template composer -/

lemma resolveGo_congr (l1 l2 : List Char → Option (List Char)) :
    ∀ (fuel : Nat) (cs : List Char),
      (∀ k ∈ placeholderKeys fuel cs, l1 k = l2 k) →
      resolveGo l1 fuel cs = resolveGo l2 fuel cs := by
  intro fuel
  induction fuel with
  | zero =>
    intro cs _
    cases cs <;> rfl
  | succ f ih =>
    intro cs h
    cases cs with
    | nil => rfl
    | cons c cs2 =>
      cases hm : matchTemplAt (c :: cs2) with
      | some kr =>
        obtain ⟨key, rest⟩ := kr
        have hk : l1 key = l2 key := h key (by simp [placeholderKeys, hm])
        have hrest : ∀ k ∈ placeholderKeys f rest, l1 k = l2 k := by
          intro k hkm
          refine h k ?_
          simp only [placeholderKeys, hm, List.mem_cons]
          exact Or.inr hkm
        simp only [resolveGo, hm, hk, ih rest hrest]
      | none =>
        have hrest : ∀ k ∈ placeholderKeys f cs2, l1 k = l2 k := by
          intro k hkm
          refine h k ?_
          simpa only [placeholderKeys, hm] using hkm
        simp only [resolveGo, hm, ih cs2 hrest]

lemma filterTruthy_append_some_ne_nil (t : List Char) (h : t.isEmpty = false) :
    ∀ L : List (Option (List Char)), filterTruthy (L ++ [some t]) ≠ [] := by
  intro L
  induction L with
  | nil => simp [filterTruthy, h]
  | cons o L2 ih =>
    cases o with
    | none => simpa [filterTruthy] using ih
    | some v =>
      by_cases hv : v.isEmpty
      · simpa [filterTruthy, hv] using ih
      · simp [filterTruthy, hv]

lemma suffix_joinSep (sep t : List Char) :
    ∀ L : List (Option (List Char)),
      t <:+ joinSepL sep (filterTruthy (L ++ [some t])) := by
  by_cases he : t.isEmpty
  · have ht : t = [] := by
      cases t with
      | nil => rfl
      | cons c cs => simp [List.isEmpty] at he
    intro L
    rw [ht]
    exact List.nil_suffix
  · have he2 : t.isEmpty = false := by simpa using he
    intro L
    induction L with
    | nil =>
      show t <:+ joinSepL sep (filterTruthy [some t])
      simp [filterTruthy, he2, joinSepL]
    | cons o L2 ih =>
      cases o with
      | none => simpa [filterTruthy] using ih
      | some v =>
        by_cases hv : v.isEmpty
        · simpa [filterTruthy, hv] using ih
        · have hv2 : v.isEmpty = false := by simpa using hv
          have hne := filterTruthy_append_some_ne_nil t he2 L2
          cases hr : filterTruthy (L2 ++ [some t]) with
          | nil => exact absurd hr hne
          | cons x xs =>
            have hshape : filterTruthy ((some v :: L2) ++ [some t]) = v :: x :: xs := by
              simp [filterTruthy, hv2, hr]
            rw [hshape]
            have hsuf : t <:+ joinSepL sep (x :: xs) := by
              rw [← hr]
              exact ih
            have hjoin : joinSepL sep (v :: x :: xs) =
                v ++ (sep ++ joinSepL sep (x :: xs)) := by
              simp [joinSepL]
            rw [hjoin]
            exact (hsuf.trans (List.suffix_append _ _)).trans (List.suffix_append _ _)

/-- C9 counterexample: the unrecognized placeholder name `constructor` is not
left verbatim — JS property lookup on the `vars` object literal reaches
`Object.prototype.constructor`, so the placeholder is replaced by the
stringified inherited function. -/
theorem composer_verbatim_counterexample :
    resolveTemplateSrc ssoC9 none "\x7b\x7bconstructor\x7d\x7d".data =
      "function Object() \x7b [native code] \x7d".data ∧
    resolveTemplateSrc ssoC9 none "\x7b\x7bconstructor\x7d\x7d".data ≠
      "\x7b\x7bconstructor\x7d\x7d".data := by
  decide

/-- C9 amended: recognized placeholders are substituted with snapshot values
and unrecognized ones left verbatim, provided no placeholder name collides
with an `Object.prototype` member (then `resolveTemplate` agrees with the
spec-worded substitution); the concrete spec examples hold, and the
always-present per-tick state block closes the user message after the
optional game and level contexts. -/
theorem composer_contract :
    (∀ (sso : SSO) (gn : Option (List Char)) (content : List Char),
        (∀ k ∈ placeholderKeys content.length content, protoLookup k = none) →
        resolveTemplateSrc sso gn content = specResolve sso gn content) ∧
    resolveTemplateSrc ssoC9 none "Score is \x7b\x7bgameScore\x7d\x7d".data =
      "Score is 42".data ∧
    resolveTemplateSrc ssoC9 none "\x7b\x7bfoo\x7d\x7d".data =
      "\x7b\x7bfoo\x7d\x7d".data ∧
    (∀ (sso : SSO) (cfg : PromptConfigL),
        tickStateL sso <:+ (buildPromptL sso (some cfg)).2) := by
  refine ⟨?_, by decide, by decide, ?_⟩
  · intro sso gn content h
    unfold resolveTemplateSrc specResolve
    apply resolveGo_congr
    intro k hk
    unfold lookupVarJS
    cases hsrc : lookupVarSrc sso gn k with
    | some v => rfl
    | none => simpa using h k hk
  · intro sso cfg
    show tickStateL sso <:+ joinSepL "\n\n".data (filterTruthy
      [resolveOpt sso cfg.gameName cfg.gameContent,
       resolveOpt sso cfg.gameName cfg.levelContent, some (tickStateL sso)])
    exact suffix_joinSep "\n\n".data (tickStateL sso)
      [resolveOpt sso cfg.gameName cfg.gameContent,
       resolveOpt sso cfg.gameName cfg.levelContent]

/-- Witness for the amended C9: the no-prototype-collision equality applied
to a concrete two-placeholder layer. -/
theorem composer_contract_witness :
    resolveTemplateSrc ssoC9 none
        "Tick \x7b\x7bgameTick\x7d\x7d and \x7b\x7bmystery\x7d\x7d".data =
      specResolve ssoC9 none
        "Tick \x7b\x7bgameTick\x7d\x7d and \x7b\x7bmystery\x7d\x7d".data :=
  composer_contract.1 ssoC9 none _ (by decide)
